import Mathlib

/-!
# Verification of the Instagram URL cleaner (`src/static/js/app.js`)

Shallow embedding of the URL-cleaning core of the repository:
`isValidInstagramUrl`, `cleanInstagramUrl` and `validateAndCleanUrl`
from `src/static/js/app.js`, together with a model of the JavaScript
platform primitives they use (`new URL(...)`, `String.prototype.split`,
`String.prototype.includes`, `String.prototype.toLowerCase`).

The JavaScript `URL` constructor (WHATWG URL parser) is a platform
builtin, not repository code.  It is modelled here restricted to the
canonical absolute form `<scheme>://[userinfo@]host[:port][/path][?query][#fragment]`:
the scheme starts with a letter and is made of scheme characters, the
scheme and host are ASCII-lowercased, the authority ends at the first
`/`, `?` or `#`, the host begins after the last `@` of the authority and
ends at the first `:`, the port must be decimal digits, an empty path is
normalised to `/`, `?` starts the query and `#` the fragment.  WHATWG
quirks that the cleaning code never exercises (dot-segment removal,
backslash tolerance, percent-encoding, punycode, default-port
stripping, collapsing a lone trailing `?` or `#`) are not modelled;
every theorem below quantifies over strings accepted by this model.
-/

namespace IGClean

/-- ASCII lower-casing table, modelling `String.prototype.toLowerCase`
on the ASCII range (the only range the cleaner's comparisons use). -/
def lowerTable : List (Char × Char) :=
  [('A','a'),('B','b'),('C','c'),('D','d'),('E','e'),('F','f'),('G','g'),
   ('H','h'),('I','i'),('J','j'),('K','k'),('L','l'),('M','m'),('N','n'),
   ('O','o'),('P','p'),('Q','q'),('R','r'),('S','s'),('T','t'),('U','u'),
   ('V','v'),('W','w'),('X','x'),('Y','y'),('Z','z')]

/-- ASCII lower-casing of one character (model of `toLowerCase`). -/
def jsToLower (c : Char) : Char :=
  ((lowerTable.find? (fun p => p.1 = c)).map Prod.snd).getD c

/-- Lower-casing of a string, as `String.prototype.toLowerCase` does on
ASCII input. -/
def jsToLowerString (s : String) : String :=
  String.mk (s.data.map jsToLower)

/-- Model of `String.prototype.includes('/?')`: does the character list
contain the two-character substring `/?`. -/
def hasSlashQ : List Char → Bool
  | [] => false
  | '/' :: '?' :: _ => true
  | _ :: rest => hasSlashQ rest

/-- Model of `String.prototype.split('/?')` on the character level:
split at each non-overlapping occurrence of the literal `/?`, scanning
left to right, exactly as the JavaScript `split` with a non-empty
string separator does. -/
def splitSlashQ : List Char → List (List Char)
  | [] => [[]]
  | '/' :: '?' :: rest => [] :: splitSlashQ rest
  | c :: rest =>
    match splitSlashQ rest with
    | [] => [[c]]
    | h :: t => (c :: h) :: t

/-- The part of a character list strictly before its first `/?`
occurrence (the whole list when there is none).  Used to state the
spec's "path truncated at the first literal `/?`". -/
def truncAtSlashQ : List Char → List Char
  | [] => []
  | '/' :: '?' :: _ => []
  | c :: rest => c :: truncAtSlashQ rest

/-- The part of a character list strictly after its first `/?`
occurrence (empty when there is none).  Used to state the spec's
"the entire substring of the original input after the first `/?`". -/
def afterFirstSlashQ : List Char → List Char
  | [] => []
  | '/' :: '?' :: rest => rest
  | _ :: rest => afterFirstSlashQ rest

/-- The raw segment strictly between the first `/?` occurrence and the
next one (to the end when the first occurrence is the only one). -/
def betweenFirstSlashQ (l : List Char) : List Char :=
  truncAtSlashQ (afterFirstSlashQ l)

/-- Scheme characters accepted after the initial letter
(`ALPHA / DIGIT / "+" / "-" / "."`). -/
def isSchemeChar (c : Char) : Bool :=
  c.isAlphanum || c == '+' || c == '-' || c == '.'

/-- Characters ending the authority component of a URL. -/
def isAuthorityEnd (c : Char) : Bool :=
  c == '/' || c == '?' || c == '#'

/-- The part of the authority after its last `@` (the whole authority
when there is no `@`): the WHATWG host-plus-port part. -/
def afterLastAt (l : List Char) : List Char :=
  (l.reverse.takeWhile (fun c => c ≠ '@')).reverse

/-- The part of the authority before its last `@` (empty when there is
no `@`): the WHATWG userinfo part. -/
def beforeLastAt (l : List Char) : List Char :=
  ((l.reverse.dropWhile (fun c => c ≠ '@')).drop 1).reverse

/-- The record of properties the page reads off a parsed `URL` object:
`protocol` keeps the trailing `:`, `search` the leading `?` and `hash`
the leading `#`, as in the WHATWG API. -/
structure URLRec where
  protocol : String
  hostname : String
  port : String
  username : String
  password : String
  pathname : String
  search : String
  hash : String
deriving DecidableEq

/-- Model of `new URL(s)` (WHATWG URL parser, restricted as described
in the file header): `none` models the constructor throwing. -/
def parseURL (s : String) : Option URLRec :=
  let l := s.data
  let sch := l.takeWhile isSchemeChar
  let rest := l.drop sch.length
  if (sch.headD '0').isAlpha = false then none
  else if rest.take 3 ≠ [':', '/', '/'] then none
  else
    let rest2 := rest.drop 3
    let auth := rest2.takeWhile (fun c => !isAuthorityEnd c)
    let after := rest2.dropWhile (fun c => !isAuthorityEnd c)
    let hostport := afterLastAt auth
    let userinfo := beforeLastAt auth
    let hostRaw := hostport.takeWhile (fun c => c ≠ ':')
    let portRaw := hostport.dropWhile (fun c => c ≠ ':')
    if hostRaw = [] then none
    else if (portRaw.drop 1).all Char.isDigit = false then none
    else
      let path0 := after.takeWhile (fun c => c ≠ '?' && c ≠ '#')
      let rest3 := after.dropWhile (fun c => c ≠ '?' && c ≠ '#')
      some {
        protocol := String.mk (sch.map jsToLower ++ [':'])
        hostname := String.mk (hostRaw.map jsToLower)
        port := String.mk (portRaw.drop 1)
        username := String.mk (userinfo.takeWhile (fun c => c ≠ ':'))
        password := String.mk ((userinfo.dropWhile (fun c => c ≠ ':')).drop 1)
        pathname := String.mk (if path0 = [] then ['/'] else path0)
        search := String.mk (rest3.takeWhile (fun c => c ≠ '#'))
        hash := String.mk (rest3.dropWhile (fun c => c ≠ '#')) }

/-- The five allow-listed hostnames of `isValidInstagramUrl`. -/
def validDomains : List String :=
  ["instagram.com", "www.instagram.com", "m.instagram.com",
   "instagr.am", "www.instagr.am"]

/-- `isValidInstagramUrl` from `src/static/js/app.js` (lines 84-102):
parse the string, lower-case the hostname and test membership in the
allow-list; a parse failure is caught and yields `false`. -/
def isValidInstagramUrl (url : String) : Bool :=
  match parseURL url with
  | none => false
  | some urlObj =>
    let hostname := jsToLowerString urlObj.hostname
    validDomains.contains hostname

/-- The value `cleanInstagramUrl` returns. -/
structure CleaningResult where
  cleanUrl : String
  removed : String
  wasModified : Bool
deriving DecidableEq

/-- `cleanInstagramUrl` from `src/static/js/app.js` (lines 107-130):
`none` models the re-thrown `Failed to parse URL` error. -/
def cleanInstagramUrl (url : String) : Option CleaningResult :=
  match parseURL url with
  | none => none
  | some urlObj =>
    let pathParts := splitSlashQ urlObj.pathname.data
    let cleanPath := pathParts.headD []
    let cleanUrl := urlObj.protocol ++ "//" ++ urlObj.hostname ++ String.mk cleanPath
    let originalParams :=
      if hasSlashQ url.data then String.mk ((splitSlashQ url.data).getD 1 []) else ""
    let removedContent :=
      if originalParams ≠ "" then "/?" ++ originalParams
      else "No tracking parameters found"
    some { cleanUrl := cleanUrl
           removed := removedContent
           wasModified := originalParams.length > 0 }

/-- The observable outcome of one `validateAndCleanUrl` call: hide the
results (no error), show the invalid-domain error, show the
malformed-URL error from the `catch`, or display a cleaning result. -/
inductive UrlOutcome where
  | noResult
  | invalidDomain
  | malformed
  | cleaned (r : CleaningResult)
deriving DecidableEq

/-- `validateAndCleanUrl` from `src/static/js/app.js` (lines 135-161),
abstracted to the outcome it produces on the page. -/
def validateAndCleanUrl (url : String) : UrlOutcome :=
  if url = "" then .noResult
  else if isValidInstagramUrl url = false then .invalidDomain
  else
    match cleanInstagramUrl url with
    | some result => .cleaned result
    | none => .malformed

/-- Model of `String.prototype.trim`: drop leading and trailing
whitespace. -/
def jsTrim (s : String) : String :=
  String.mk (((s.data.dropWhile Char.isWhitespace).reverse.dropWhile
    Char.isWhitespace).reverse)

/-- The input pipeline as the page wires it: every caller of
`validateAndCleanUrl` (`handleUrlInput`, `handlePaste`,
`setupRealTimeValidation`) passes `value.trim()`. -/
def handleInput (raw : String) : UrlOutcome :=
  validateAndCleanUrl (jsTrim raw)

/-! ## Lemmas about the `/?` scanning primitives -/

theorem hasSlashQ_cons_default (c : Char) (rest : List Char)
    (hne : ∀ tail, c = '/' → rest = '?' :: tail → False) :
    hasSlashQ (c :: rest) = hasSlashQ rest := by
  rw [hasSlashQ.eq_def]
  split
  · rename_i heq; exact absurd heq (by simp)
  · rename_i tail heq
    injection heq with h1 h2
    exact (hne tail h1 h2).elim
  · rename_i c2 rest2 hne2 heq
    injection heq with h1 h2
    subst h1; subst h2; rfl

theorem truncAtSlashQ_cons_default (c : Char) (rest : List Char)
    (hne : ∀ tail, c = '/' → rest = '?' :: tail → False) :
    truncAtSlashQ (c :: rest) = c :: truncAtSlashQ rest := by
  rw [truncAtSlashQ.eq_def]
  split
  · rename_i heq; exact absurd heq (by simp)
  · rename_i tail heq
    injection heq with h1 h2
    exact (hne tail h1 h2).elim
  · rename_i c2 rest2 hne2 heq
    injection heq with h1 h2
    subst h1; subst h2; rfl

theorem afterFirstSlashQ_cons_default (c : Char) (rest : List Char)
    (hne : ∀ tail, c = '/' → rest = '?' :: tail → False) :
    afterFirstSlashQ (c :: rest) = afterFirstSlashQ rest := by
  rw [afterFirstSlashQ.eq_def]
  split
  · rename_i heq; exact absurd heq (by simp)
  · rename_i tail heq
    injection heq with h1 h2
    exact (hne tail h1 h2).elim
  · rename_i c2 rest2 hne2 heq
    injection heq with h1 h2
    subst h1; subst h2; rfl

theorem splitSlashQ_cons_default (c : Char) (rest : List Char)
    (hne : ∀ tail, c = '/' → rest = '?' :: tail → False) :
    splitSlashQ (c :: rest) =
      match splitSlashQ rest with
      | [] => [[c]]
      | h :: t => (c :: h) :: t := by
  rw [splitSlashQ.eq_def]
  split
  · rename_i heq; exact absurd heq (by simp)
  · rename_i tail heq
    injection heq with h1 h2
    exact (hne tail h1 h2).elim
  · rename_i c2 rest2 hne2 heq
    injection heq with h1 h2
    subst h1; subst h2; rfl

/-- JavaScript's `split('/?')` in closed form: the first piece is the
segment before the first `/?`, and the remaining pieces are the split
of the segment after it. -/
theorem splitSlashQ_master (l : List Char) :
    splitSlashQ l = truncAtSlashQ l ::
      (if hasSlashQ l = true then splitSlashQ (afterFirstSlashQ l) else []) := by
  induction l using splitSlashQ.induct with
  | case1 => rfl
  | case2 rest ih => simp [splitSlashQ, truncAtSlashQ, hasSlashQ, afterFirstSlashQ]
  | case3 c rest hne hsp ih =>
    rw [ih] at hsp
    exact absurd hsp (by simp)
  | case4 c rest hne h t hsp ih =>
    rw [splitSlashQ_cons_default c rest hne, truncAtSlashQ_cons_default c rest hne,
        hasSlashQ_cons_default c rest hne, afterFirstSlashQ_cons_default c rest hne,
        ih]

theorem splitSlashQ_ne_nil (l : List Char) : splitSlashQ l ≠ [] := by
  rw [splitSlashQ_master]; simp

theorem headD_splitSlashQ (l : List Char) :
    (splitSlashQ l).headD [] = truncAtSlashQ l := by
  rw [splitSlashQ_master]; rfl

theorem truncAtSlashQ_of_not_has {l : List Char} (h : hasSlashQ l = false) :
    truncAtSlashQ l = l := by
  induction l using hasSlashQ.induct with
  | case1 => rfl
  | case2 rest => simp [hasSlashQ] at h
  | case3 c rest hne ih =>
    rw [hasSlashQ_cons_default c rest hne] at h
    rw [truncAtSlashQ_cons_default c rest hne, ih h]

theorem splitSlashQ_of_not_has {l : List Char} (h : hasSlashQ l = false) :
    splitSlashQ l = [l] := by
  rw [splitSlashQ_master, h, truncAtSlashQ_of_not_has h]
  rfl

theorem getD_one_splitSlashQ {l : List Char} (h : hasSlashQ l = true) :
    (splitSlashQ l).getD 1 [] = betweenFirstSlashQ l := by
  have hm := splitSlashQ_master l
  rw [h] at hm
  simp only [if_true] at hm
  rw [hm]
  unfold betweenFirstSlashQ
  rw [← headD_splitSlashQ (afterFirstSlashQ l)]
  cases splitSlashQ (afterFirstSlashQ l) <;> rfl

theorem hasSlashQ_of_no_q {l : List Char} (h : ∀ c ∈ l, c ≠ '?') :
    hasSlashQ l = false := by
  induction l using hasSlashQ.induct with
  | case1 => rfl
  | case2 rest => exact absurd rfl (h '?' (by simp))
  | case3 c rest hne ih =>
    rw [hasSlashQ_cons_default c rest hne]
    exact ih (fun d hd => h d (by simp [hd]))

/-! ## Lemmas about ASCII lower-casing -/

theorem jsToLower_cases (c : Char) :
    jsToLower c = c ∨ ∃ p, p ∈ lowerTable ∧ jsToLower c = p.2 := by
  cases h : lowerTable.find? (fun p => p.1 = c) with
  | none => left; simp [jsToLower, h]
  | some p =>
    right
    exact ⟨p, List.mem_of_find?_eq_some h, by simp [jsToLower, h]⟩

theorem lowerTable_snd_props :
    ∀ p ∈ lowerTable, jsToLower p.2 = p.2 ∧ (p.2).isAlpha = true ∧
      isSchemeChar p.2 = true ∧ isAuthorityEnd p.2 = false ∧
      p.2 ≠ ':' ∧ p.2 ≠ '@' ∧ p.2 ≠ '?' ∧ p.2 ≠ '#' := by decide

theorem jsToLower_idem (c : Char) : jsToLower (jsToLower c) = jsToLower c := by
  rcases jsToLower_cases c with h | ⟨p, hp, h⟩
  · rw [h, h]
  · rw [h]; exact (lowerTable_snd_props p hp).1

theorem jsToLower_isAlpha {c : Char} (h : c.isAlpha = true) :
    (jsToLower c).isAlpha = true := by
  rcases jsToLower_cases c with h2 | ⟨p, hp, h2⟩
  · rw [h2]; exact h
  · rw [h2]; exact (lowerTable_snd_props p hp).2.1

theorem jsToLower_isSchemeChar {c : Char} (h : isSchemeChar c = true) :
    isSchemeChar (jsToLower c) = true := by
  rcases jsToLower_cases c with h2 | ⟨p, hp, h2⟩
  · rw [h2]; exact h
  · rw [h2]; exact (lowerTable_snd_props p hp).2.2.1

theorem jsToLower_hostChar {c : Char}
    (h : isAuthorityEnd c = false ∧ c ≠ ':' ∧ c ≠ '@') :
    isAuthorityEnd (jsToLower c) = false ∧ jsToLower c ≠ ':' ∧ jsToLower c ≠ '@' := by
  rcases jsToLower_cases c with h2 | ⟨p, hp, h2⟩
  · rw [h2]; exact h
  · rw [h2]
    exact ⟨(lowerTable_snd_props p hp).2.2.2.1, (lowerTable_snd_props p hp).2.2.2.2.1,
      (lowerTable_snd_props p hp).2.2.2.2.2.1⟩

theorem map_jsToLower_idem (l : List Char) :
    (l.map jsToLower).map jsToLower = l.map jsToLower := by
  rw [List.map_map]
  exact List.map_congr_left (fun a _ => jsToLower_idem a)

/-! ## Generic helpers about `takeWhile` and `dropWhile` -/

theorem takeWhile_app_of_all {α : Type} {p : α → Bool} {a : List α} (b : List α)
    (h : ∀ c ∈ a, p c = true) : (a ++ b).takeWhile p = a ++ b.takeWhile p := by
  induction a with
  | nil => simp
  | cons x xs ih =>
    rw [List.cons_append, List.takeWhile_cons_of_pos (h x (by simp)),
        ih (fun c hc => h c (by simp [hc])), List.cons_append]

theorem dropWhile_app_of_all {α : Type} {p : α → Bool} {a : List α} (b : List α)
    (h : ∀ c ∈ a, p c = true) : (a ++ b).dropWhile p = b.dropWhile p := by
  induction a with
  | nil => simp
  | cons x xs ih =>
    rw [List.cons_append, List.dropWhile_cons_of_pos (h x (by simp)),
        ih (fun c hc => h c (by simp [hc]))]

theorem takeWhile_all_eq_self {α : Type} {p : α → Bool} {a : List α}
    (h : ∀ c ∈ a, p c = true) : a.takeWhile p = a := by
  have := takeWhile_app_of_all (p := p) [] h
  simpa using this

theorem dropWhile_all_eq_nil {α : Type} {p : α → Bool} {a : List α}
    (h : ∀ c ∈ a, p c = true) : a.dropWhile p = [] := by
  have := dropWhile_app_of_all (p := p) [] h
  simpa using this

/-! ## Lemmas about the userinfo split of the authority -/

theorem afterLastAt_no_at {l : List Char} {c : Char} (h : c ∈ afterLastAt l) :
    c ≠ '@' := by
  have h2 := List.mem_takeWhile_imp (List.mem_reverse.mp h)
  simpa using h2

theorem afterLastAt_sub {l : List Char} {c : Char} (h : c ∈ afterLastAt l) :
    c ∈ l := by
  have h2 := (List.takeWhile_sublist (l := l.reverse)
    (fun c => decide (c ≠ '@'))).subset (List.mem_reverse.mp h)
  exact List.mem_reverse.mp h2

theorem afterLastAt_of_no_at {l : List Char} (h : ∀ c ∈ l, c ≠ '@') :
    afterLastAt l = l := by
  unfold afterLastAt
  rw [takeWhile_all_eq_self (fun c hc => by
    simpa using h c (List.mem_reverse.mp hc))]
  exact List.reverse_reverse l

theorem beforeLastAt_of_no_at {l : List Char} (h : ∀ c ∈ l, c ≠ '@') :
    beforeLastAt l = [] := by
  unfold beforeLastAt
  rw [dropWhile_all_eq_nil (fun c hc => by
    simpa using h c (List.mem_reverse.mp hc))]
  rfl

/-! ## Small `String` helpers -/

theorem data_append (s t : String) : (s ++ t).data = s.data ++ t.data := by
  cases s; cases t; rfl

theorem mk_data (s : String) : String.mk s.data = s := by
  cases s; rfl

theorem mk_eq_empty_iff (l : List Char) : String.mk l = "" ↔ l = [] := by
  constructor
  · intro h; exact congrArg String.data h
  · intro h; rw [h]

theorem mk_length (l : List Char) : (String.mk l).length = l.length := rfl

/-! ## Inversion: structure of any successfully parsed URL -/

theorem headD_eq_head {α : Type} (l : List α) (d : α) (h : l ≠ []) :
    l.headD d = l.head h := by
  cases l with
  | nil => exact absurd rfl h
  | cons a t => rfl

theorem headD_path0 (rest2 : List Char)
    (hne : ((rest2.dropWhile (fun c => !isAuthorityEnd c)).takeWhile
      (fun c => c ≠ '?' && c ≠ '#')) ≠ []) :
    ((rest2.dropWhile (fun c => !isAuthorityEnd c)).takeWhile
      (fun c => c ≠ '?' && c ≠ '#')).headD ' ' = '/' := by
  have hafter_ne : rest2.dropWhile (fun c => !isAuthorityEnd c) ≠ [] := by
    intro he
    rw [he] at hne
    exact hne rfl
  have hAuth : isAuthorityEnd ((rest2.dropWhile (fun c => !isAuthorityEnd c)).head hafter_ne) = true := by
    have := List.head_dropWhile_not (fun c => !isAuthorityEnd c) rest2 hafter_ne
    simpa using this
  rw [headD_eq_head _ _ hne, List.head_takeWhile]
  have hmem := List.head_mem hne
  have hpred := List.mem_takeWhile_imp hmem
  rw [List.head_takeWhile] at hpred
  simp only [Bool.and_eq_true, decide_eq_true_eq] at hpred
  simp only [isAuthorityEnd, Bool.or_eq_true, beq_iff_eq] at hAuth
  tauto

theorem parseURL_inv {s : String} {u : URLRec} (h : parseURL s = some u) :
    ∃ sch host path : List Char,
      u.protocol = String.mk (sch ++ [':']) ∧
      u.hostname = String.mk host ∧
      u.pathname = String.mk path ∧
      (sch.headD '0').isAlpha = true ∧
      (∀ c ∈ sch, isSchemeChar c = true) ∧
      sch.map jsToLower = sch ∧
      host ≠ [] ∧
      host.map jsToLower = host ∧
      (∀ c ∈ host, isAuthorityEnd c = false ∧ c ≠ ':' ∧ c ≠ '@') ∧
      path ≠ [] ∧ path.headD ' ' = '/' ∧
      (∀ c ∈ path, c ≠ '?' ∧ c ≠ '#') := by
  rw [parseURL.eq_def] at h
  dsimp only at h
  split at h
  · exact absurd h (by simp)
  rename_i hA
  split at h
  · exact absurd h (by simp)
  rename_i hB
  split at h
  · exact absurd h (by simp)
  rename_i hC
  split at h
  · exact absurd h (by simp)
  rename_i hD
  simp only [Option.some.injEq] at h
  subst h
  simp only [Bool.not_eq_false] at hA
  refine ⟨_, _, _, rfl, rfl, rfl, ?_, ?_, ?_, ?_, ?_, ?_, ?_, ?_, ?_⟩
  · cases hsch : s.data.takeWhile isSchemeChar with
    | nil => rw [hsch] at hA; exact absurd hA (by decide)
    | cons c t =>
      rw [hsch] at hA
      simp only [List.headD_cons] at hA
      simp only [List.map_cons, List.headD_cons]
      exact jsToLower_isAlpha hA
  · intro c hc
    rcases List.mem_map.mp hc with ⟨d, hd, rfl⟩
    exact jsToLower_isSchemeChar (List.mem_takeWhile_imp hd)
  · exact map_jsToLower_idem _
  · simpa [List.map_eq_nil_iff] using hC
  · exact map_jsToLower_idem _
  · intro c hc
    rcases List.mem_map.mp hc with ⟨d, hd, rfl⟩
    have hd1 : d ≠ ':' := by simpa using List.mem_takeWhile_imp hd
    have hdmem : d ∈ afterLastAt ((((s.data).drop
        ((s.data.takeWhile isSchemeChar).length)).drop 3).takeWhile
        (fun c => !isAuthorityEnd c)) := (List.takeWhile_sublist _).subset hd
    have hd3 : d ≠ '@' := afterLastAt_no_at hdmem
    have hd4 : isAuthorityEnd d = false := by
      have := List.mem_takeWhile_imp (afterLastAt_sub hdmem)
      simpa using this
    exact jsToLower_hostChar ⟨hd4, hd1, hd3⟩
  · split
    · simp
    · rename_i hne; exact hne
  · split
    · rfl
    · rename_i hne
      exact headD_path0 _ hne
  · intro c hc
    split at hc
    · simp at hc
      subst hc
      exact ⟨by decide, by decide⟩
    · have := List.mem_takeWhile_imp hc
      simp only [Bool.and_eq_true, decide_eq_true_eq] at this
      exact this

/-! ## Closed form of the cleaner -/

theorem decide_length_pos {α : Type} (l : List α) :
    decide (0 < l.length) = !l.isEmpty := by
  cases l <;> simp

/-- Closed form of `cleanInstagramUrl` on any parseable input. -/
theorem cleanInstagramUrl_spec {s : String} {u : URLRec} (h : parseURL s = some u) :
    cleanInstagramUrl s = some {
      cleanUrl := u.protocol ++ "//" ++ u.hostname ++ u.pathname
      removed := if hasSlashQ s.data = true ∧ betweenFirstSlashQ s.data ≠ [] then
          "/?" ++ String.mk (betweenFirstSlashQ s.data)
        else "No tracking parameters found"
      wasModified := hasSlashQ s.data && !(betweenFirstSlashQ s.data).isEmpty } := by
  obtain ⟨sch, host, path, hProto, hHost, hPath, hSchAlpha, hSchChars, hSchMap,
    hHostNe, hHostMap, hHostChars, hPathNe, hPathHead, hPathChars⟩ := parseURL_inv h
  have hnoq : hasSlashQ u.pathname.data = false := by
    rw [hPath]
    exact hasSlashQ_of_no_q (fun c hc => (hPathChars c hc).1)
  simp only [cleanInstagramUrl, h]
  rw [splitSlashQ_of_not_has hnoq]
  simp only [List.headD_cons, mk_data, Option.some.injEq, CleaningResult.mk.injEq]
  refine ⟨trivial, ?_, ?_⟩
  · by_cases hq : hasSlashQ s.data = true
    · rw [if_pos hq, getD_one_splitSlashQ hq]
      by_cases hb : betweenFirstSlashQ s.data = []
      · rw [hb]
        rw [if_neg (by simp [mk_eq_empty_iff])]
        rw [if_neg (by simp [hb])]
      · rw [if_pos (show String.mk (betweenFirstSlashQ s.data) ≠ "" by
            simp [mk_eq_empty_iff, hb]), if_pos ⟨hq, hb⟩]
    · rw [if_neg hq]
      rw [if_neg (by simp)]
      rw [if_neg (by simp [hq])]
  · by_cases hq : hasSlashQ s.data = true
    · rw [if_pos hq, getD_one_splitSlashQ hq, hq]
      show decide (0 < (String.mk (betweenFirstSlashQ s.data)).length) = _
      rw [mk_length, decide_length_pos]
      simp
    · rw [if_neg hq]
      show decide (0 < ("" : String).length) = _
      rw [show hasSlashQ s.data = false from by simpa using hq]
      simp


/-- Re-parsing `protocol + "//" + hostname + pathname` of any parsed URL
succeeds and reproduces the same protocol, hostname and pathname, with
empty port, userinfo, query and fragment. -/
theorem parseURL_reassemble {s : String} {u : URLRec} (h : parseURL s = some u) :
    parseURL (u.protocol ++ "//" ++ u.hostname ++ u.pathname) =
      some { protocol := u.protocol, hostname := u.hostname, port := "",
             username := "", password := "", pathname := u.pathname,
             search := "", hash := "" } := by
  obtain ⟨sch, host, path, hProto, hHost, hPath, hSchAlpha, hSchChars, hSchMap,
    hHostNe, hHostMap, hHostChars, hPathNe, hPathHead, hPathChars⟩ := parseURL_inv h
  obtain ⟨pt, rfl⟩ : ∃ pt, path = '/' :: pt := by
    cases path with
    | nil => exact absurd rfl hPathNe
    | cons a t =>
      refine ⟨t, ?_⟩
      have : a = '/' := by simpa using hPathHead
      rw [this]
  rw [hProto, hHost, hPath]
  have hdata : (String.mk (sch ++ [':']) ++ "//" ++ String.mk host ++
      String.mk ('/' :: pt)).data = sch ++ (':' :: '/' :: '/' :: (host ++ '/' :: pt)) := by
    simp [data_append]
  rw [parseURL.eq_def]
  dsimp only
  rw [hdata]
  rw [takeWhile_app_of_all _ hSchChars]
  rw [List.takeWhile_cons_of_neg (by decide), List.append_nil]
  rw [if_neg (by rw [hSchAlpha]; simp)]
  rw [List.drop_left]
  rw [show (':' :: '/' :: '/' :: (host ++ '/' :: pt)).take 3 = [':', '/', '/'] from rfl]
  rw [if_neg (by simp)]
  rw [show (':' :: '/' :: '/' :: (host ++ '/' :: pt)).drop 3 = host ++ '/' :: pt from rfl]
  have hHostAll : ∀ c ∈ host, (!isAuthorityEnd c) = true := by
    intro c hc
    simp [(hHostChars c hc).1]
  rw [takeWhile_app_of_all _ hHostAll, dropWhile_app_of_all _ hHostAll]
  rw [List.takeWhile_cons_of_neg (by simp [isAuthorityEnd]), List.append_nil]
  rw [List.dropWhile_cons_of_neg (by simp [isAuthorityEnd])]
  have hNoAt : ∀ c ∈ host, c ≠ '@' := fun c hc => (hHostChars c hc).2.2
  rw [afterLastAt_of_no_at hNoAt, beforeLastAt_of_no_at hNoAt]
  have hNoColon : ∀ c ∈ host, (decide (c ≠ ':')) = true := by
    intro c hc
    simp [(hHostChars c hc).2.1]
  rw [takeWhile_all_eq_self hNoColon, dropWhile_all_eq_nil hNoColon]
  rw [if_neg (by simpa using hHostNe)]
  rw [if_neg (by simp)]
  have hPathAll : ∀ c ∈ ('/' :: pt), (decide (c ≠ '?') && decide (c ≠ '#')) = true := by
    intro c hc
    simp [(hPathChars c hc).1, (hPathChars c hc).2]
  rw [takeWhile_all_eq_self hPathAll, dropWhile_all_eq_nil hPathAll]
  rw [if_neg (by simp)]
  rw [hSchMap, hHostMap]
  rfl


/-! ## Shared consequences used by several claim theorems -/

theorem schemeChar_props {c : Char} (h : isSchemeChar c = true) :
    c ≠ '?' ∧ c ≠ '#' := by
  constructor <;> rintro rfl <;> exact absurd h (by decide)

theorem authorityEnd_false_props {c : Char} (h : isAuthorityEnd c = false) :
    c ≠ '?' ∧ c ≠ '#' := by
  constructor <;> rintro rfl <;> exact absurd h (by decide)

/-- No character of the reassembled clean URL is `?` or `#`. -/
theorem cleanUrl_chars {s : String} {u : URLRec} (h : parseURL s = some u) :
    ∀ c ∈ (u.protocol ++ "//" ++ u.hostname ++ u.pathname).data, c ≠ '?' ∧ c ≠ '#' := by
  obtain ⟨sch, host, path, hProto, hHost, hPath, _, hSchChars, _, _, _,
    hHostChars, _, _, hPathChars⟩ := parseURL_inv h
  intro c hc
  rw [data_append, data_append, data_append, hProto, hHost, hPath] at hc
  rw [show ("//" : String).data = ['/', '/'] from rfl] at hc
  rcases List.mem_append.mp hc with hc1 | hcPath
  · rcases List.mem_append.mp hc1 with hc2 | hcHost
    · rcases List.mem_append.mp hc2 with hcProto | hcSlash
      · rcases List.mem_append.mp hcProto with hcSch | hcColon
        · exact schemeChar_props (hSchChars c hcSch)
        · have : c = ':' := by simpa using hcColon
          subst this
          exact ⟨by decide, by decide⟩
      · have : c = '/' := by simpa using hcSlash
        subst this
        exact ⟨by decide, by decide⟩
    · exact authorityEnd_false_props (hHostChars c hcHost).1
  · exact hPathChars c hcPath

/-- The `pathname` of a parsed URL never contains `?`, so splitting it at
`/?` is a no-op. -/
theorem pathname_hasSlashQ_false {s : String} {u : URLRec} (h : parseURL s = some u) :
    hasSlashQ u.pathname.data = false := by
  obtain ⟨sch, host, path, _, _, hPath, _, _, _, _, _, _, _, _, hPathChars⟩ :=
    parseURL_inv h
  rw [hPath]
  exact hasSlashQ_of_no_q (fun c hc => (hPathChars c hc).1)

/-- The parsed hostname is already lower-case. -/
theorem hostname_lower {s : String} {u : URLRec} (h : parseURL s = some u) :
    jsToLowerString u.hostname = u.hostname := by
  obtain ⟨sch, host, path, _, hHost, _, _, _, _, _, hHostMap, _, _, _, _⟩ :=
    parseURL_inv h
  rw [hHost]
  unfold jsToLowerString
  exact congrArg String.mk hHostMap

/-- A string accepted by `isValidInstagramUrl` parses, hence cleans. -/
theorem clean_of_valid (s : String) (hv : isValidInstagramUrl s = true) :
    ∃ r, cleanInstagramUrl s = some r := by
  cases hp : parseURL s with
  | none =>
    rw [isValidInstagramUrl, hp] at hv
    exact absurd hv (by simp)
  | some u => exact ⟨_, cleanInstagramUrl_spec hp⟩

/-! ## Claim theorems -/

/-- C1: for every input string that parses as an absolute URL,
`cleanInstagramUrl` returns a `cleanUrl` of the form
`<scheme>://<host><path up to the first slash-question mark>`: the host is the parsed lower-cased
hostname, the path is the parsed path truncated at the first literal
`/?`, and the query string and fragment of the standard parse are
discarded entirely (the clean URL is rebuilt from protocol, hostname
and truncated path alone). -/
theorem C1_cleanUrl_shape {s : String} {u : URLRec} (h : parseURL s = some u) :
    ∃ r, cleanInstagramUrl s = some r ∧
      r.cleanUrl = u.protocol ++ "//" ++ u.hostname ++
        String.mk (truncAtSlashQ u.pathname.data) ∧
      jsToLowerString u.hostname = u.hostname := by
  refine ⟨_, cleanInstagramUrl_spec h, ?_, hostname_lower h⟩
  rw [truncAtSlashQ_of_not_has (pathname_hasSlashQ_false h), mk_data]

/-- Witness for C1 at a concrete input. -/
theorem C1_cleanUrl_shape_witness :
    ∃ r, cleanInstagramUrl "https://instagram.com/p/ABC123" = some r ∧
      r.cleanUrl = "https:" ++ "//" ++ "instagram.com" ++
        String.mk (truncAtSlashQ ("/p/ABC123" : String).data) ∧
      jsToLowerString "instagram.com" = "instagram.com" :=
  C1_cleanUrl_shape
    (u := { protocol := "https:", hostname := "instagram.com", port := "",
            username := "", password := "", pathname := "/p/ABC123",
            search := "", hash := "" }) (by decide)

/-- C5: cleaning is idempotent on the URL value: re-cleaning a produced
`cleanUrl` succeeds and leaves it unchanged. -/
theorem C5_clean_idempotent {s : String} {r : CleaningResult}
    (h : cleanInstagramUrl s = some r) :
    ∃ r2, cleanInstagramUrl r.cleanUrl = some r2 ∧ r2.cleanUrl = r.cleanUrl := by
  obtain ⟨u, hu⟩ : ∃ u, parseURL s = some u := by
    cases hp : parseURL s with
    | none =>
      rw [cleanInstagramUrl, hp] at h
      exact absurd h (by simp)
    | some u => exact ⟨u, rfl⟩
  have hs := cleanInstagramUrl_spec hu
  rw [h, Option.some.injEq] at hs
  have hcu : r.cleanUrl = u.protocol ++ "//" ++ u.hostname ++ u.pathname := by
    rw [hs]
  have hre := parseURL_reassemble hu
  rw [← hcu] at hre
  refine ⟨_, cleanInstagramUrl_spec hre, ?_⟩
  rw [hcu]

/-- Witness for C5 at a concrete input. -/
theorem C5_clean_idempotent_witness :
    ∃ r2, cleanInstagramUrl "https://instagram.com/p/ABC123" = some r2 ∧
      r2.cleanUrl = "https://instagram.com/p/ABC123" :=
  C5_clean_idempotent (s := "https://instagram.com/p/ABC123")
    (r := { cleanUrl := "https://instagram.com/p/ABC123",
            removed := "No tracking parameters found", wasModified := false })
    (by decide)

/-- C9: for every parseable input, `cleanUrl` equals
`protocol + "//" + hostname + pathname` of the standard parse; the split
of the parsed pathname on `/?` is a no-op because a parsed pathname
cannot contain `?`, so `cleanUrl` never contains `?` or `#` and always
drops any port, userinfo, query and fragment of the input. -/
theorem C9_cleanUrl_refines {s : String} {u : URLRec} (h : parseURL s = some u) :
    ∃ r, cleanInstagramUrl s = some r ∧
      r.cleanUrl = u.protocol ++ "//" ++ u.hostname ++ u.pathname ∧
      splitSlashQ u.pathname.data = [u.pathname.data] ∧
      (∀ c ∈ r.cleanUrl.data, c ≠ '?' ∧ c ≠ '#') := by
  refine ⟨_, cleanInstagramUrl_spec h,  rfl,
    splitSlashQ_of_not_has (pathname_hasSlashQ_false h), ?_⟩
  exact cleanUrl_chars h

/-- Witness for C9 at an input that carries userinfo, a port, a query
and a fragment, all of which are dropped. -/
theorem C9_cleanUrl_refines_witness :
    ∃ r, cleanInstagramUrl "https://user:pw@instagram.com:8080/p/X?q=1#frag" = some r ∧
      r.cleanUrl = "https:" ++ "//" ++ "instagram.com" ++ "/p/X" ∧
      splitSlashQ ("/p/X" : String).data = [("/p/X" : String).data] ∧
      (∀ c ∈ ("https:" ++ "//" ++ "instagram.com" ++ "/p/X" : String).data,
        c ≠ '?' ∧ c ≠ '#') := by
  have := C9_cleanUrl_refines (s := "https://user:pw@instagram.com:8080/p/X?q=1#frag")
    (u := { protocol := "https:", hostname := "instagram.com", port := "8080",
            username := "user", password := "pw", pathname := "/p/X",
            search := "?q=1", hash := "#frag" }) (by decide)
  obtain ⟨r, h1, h2, h3, h4⟩ := this
  exact ⟨r, h1, h2, h3, by rw [← h2]; exact h4⟩

/-- C10: `wasModified` does not track whether the URL value changed:
there is a parseable input (here one with a conventional `?query` and
no literal `/?`) whose cleaning reports `wasModified = false` while the
returned `cleanUrl` differs from the input. -/
theorem C10_wasModified_mismatch :
    ∃ s r, cleanInstagramUrl s = some r ∧ r.wasModified = false ∧
      r.cleanUrl ≠ s :=
  ⟨"https://instagram.com/p/X?a=1",
   { cleanUrl := "https://instagram.com/p/X",
     removed := "No tracking parameters found", wasModified := false },
   by decide, by decide, by decide⟩


/-- C2 as stated is false on the code: on the spec's own scenario input
the cleaned URL keeps the trailing slash of the parsed pathname
(`.../DMaaOuDK_Bk/`), while the claim demands `.../DMaaOuDK_Bk`
without it. `removed` and `wasModified` are as claimed. -/
theorem C2_scenario_counterexample :
    cleanInstagramUrl "https://www.instagram.com/reel/DMaaOuDK_Bk/?igsh=dHFkZW9ycmh1cnQz" =
      some { cleanUrl := "https://www.instagram.com/reel/DMaaOuDK_Bk/",
             removed := "/?igsh=dHFkZW9ycmh1cnQz", wasModified := true } ∧
    ("https://www.instagram.com/reel/DMaaOuDK_Bk/" : String) ≠
      "https://www.instagram.com/reel/DMaaOuDK_Bk" :=
  ⟨by decide, by decide⟩

/-- C2 amended: on input
`https://www.instagram.com/reel/DMaaOuDK_Bk/?igsh=dHFkZW9ycmh1cnQz` the
code returns `cleanUrl = "https://www.instagram.com/reel/DMaaOuDK_Bk/"`
(with the trailing slash), `wasModified = true`,
`removed = "/?igsh=dHFkZW9ycmh1cnQz"`. -/
theorem C2_scenario :
    cleanInstagramUrl "https://www.instagram.com/reel/DMaaOuDK_Bk/?igsh=dHFkZW9ycmh1cnQz" =
      some { cleanUrl := "https://www.instagram.com/reel/DMaaOuDK_Bk/",
             removed := "/?igsh=dHFkZW9ycmh1cnQz", wasModified := true } := by
  decide

/-- C3 as stated is false on the code: `url.split('/?')[1]` keeps only
the segment up to the next `/?` occurrence, not the entire remainder of
the raw input after the first `/?`.  On
`https://instagram.com/a/?b/?c` the entire remainder is `b/?c`, but the
code reports `removed = "/?b"`. -/
theorem C3_removed_counterexample :
    ∃ r, cleanInstagramUrl "https://instagram.com/a/?b/?c" = some r ∧
      r.removed = "/?b" ∧
      String.mk (afterFirstSlashQ ("https://instagram.com/a/?b/?c" : String).data) =
        "b/?c" ∧
      r.removed ≠
        "/?" ++ String.mk (afterFirstSlashQ ("https://instagram.com/a/?b/?c" : String).data) :=
  ⟨{ cleanUrl := "https://instagram.com/a/",
     removed := "/?b", wasModified := true },
   by decide, by decide, by decide, by decide⟩

/-- C3 amended: for every parseable input whose raw string contains
`/?`, `removed` is `/?` followed by the raw segment strictly between
the first `/?` and the next occurrence (to the end if there is none)
when that segment is non-empty, and the sentinel
`No tracking parameters found` when it is empty; with no `/?` in the
raw string, `removed` is the sentinel; `wasModified` is true iff that
between-segment is non-empty. -/
theorem C3_removed_from_raw {s : String} {u : URLRec} (h : parseURL s = some u) :
    ∃ r, cleanInstagramUrl s = some r ∧
      (hasSlashQ s.data = true →
        (betweenFirstSlashQ s.data ≠ [] →
          r.removed = "/?" ++ String.mk (betweenFirstSlashQ s.data)) ∧
        (betweenFirstSlashQ s.data = [] →
          r.removed = "No tracking parameters found") ∧
        r.wasModified = !(betweenFirstSlashQ s.data).isEmpty) ∧
      (hasSlashQ s.data = false →
        r.removed = "No tracking parameters found" ∧ r.wasModified = false) := by
  refine ⟨_, cleanInstagramUrl_spec h, ?_, ?_⟩
  · intro hq
    refine ⟨?_, ?_, ?_⟩
    · intro hb
      show (if _ ∧ _ then _ else _) = _
      rw [if_pos ⟨hq, hb⟩]
    · intro hb
      show (if _ ∧ _ then _ else _) = _
      rw [if_neg (by simp [hb])]
    · show (hasSlashQ s.data && _) = _
      rw [hq, Bool.true_and]
  · intro hq
    constructor
    · show (if _ ∧ _ then _ else _) = _
      rw [if_neg (by simp [hq])]
    · show (hasSlashQ s.data && _) = _
      rw [hq, Bool.false_and]

/-- Witness for the amended C3 at the double-`/?` input. -/
theorem C3_removed_from_raw_witness :
    ∃ r, cleanInstagramUrl "https://instagram.com/a/?b/?c" = some r ∧
      (hasSlashQ ("https://instagram.com/a/?b/?c" : String).data = true →
        (betweenFirstSlashQ ("https://instagram.com/a/?b/?c" : String).data ≠ [] →
          r.removed = "/?" ++
            String.mk (betweenFirstSlashQ ("https://instagram.com/a/?b/?c" : String).data)) ∧
        (betweenFirstSlashQ ("https://instagram.com/a/?b/?c" : String).data = [] →
          r.removed = "No tracking parameters found") ∧
        r.wasModified =
          !(betweenFirstSlashQ ("https://instagram.com/a/?b/?c" : String).data).isEmpty) ∧
      (hasSlashQ ("https://instagram.com/a/?b/?c" : String).data = false →
        r.removed = "No tracking parameters found" ∧ r.wasModified = false) :=
  C3_removed_from_raw (s := "https://instagram.com/a/?b/?c")
    (u := { protocol := "https:", hostname := "instagram.com", port := "",
            username := "", password := "", pathname := "/a/",
            search := "?b/?c", hash := "" }) (by decide)

/-- C4: `isValidInstagramUrl` returns true iff the input parses as an
absolute URL and its (already lower-cased) hostname is exactly one of
the five allow-listed Instagram domains; every unparseable string
yields false (fails closed), and the parsed hostname is lower-cased, so
the host match is case-insensitive in the input. -/
theorem C4_allowlist :
    (∀ s, parseURL s = none → isValidInstagramUrl s = false) ∧
    (∀ s u, parseURL s = some u →
      (isValidInstagramUrl s = true ↔
        u.hostname ∈ (["instagram.com", "www.instagram.com", "m.instagram.com",
          "instagr.am", "www.instagr.am"] : List String))) ∧
    (∀ s u, parseURL s = some u → jsToLowerString u.hostname = u.hostname) := by
  refine ⟨?_, ?_, fun s u h => hostname_lower h⟩
  · intro s h
    rw [isValidInstagramUrl, h]
  · intro s u h
    rw [isValidInstagramUrl, h]
    dsimp only
    rw [hostname_lower h]
    show validDomains.contains u.hostname = true ↔ _
    rw [validDomains]
    constructor
    · intro hc
      simpa using hc
    · intro hm
      simpa using hm

/-- Witness for C4: an unparseable string fails closed, an upper-cased
Instagram host validates, and its parsed hostname is lower-cased. -/
theorem C4_allowlist_witness :
    isValidInstagramUrl "not a url" = false ∧
    isValidInstagramUrl "https://WWW.INSTAGRAM.COM/p/X" = true ∧
    jsToLowerString "www.instagram.com" = "www.instagram.com" :=
  ⟨C4_allowlist.1 "not a url" (by decide),
   (C4_allowlist.2.1 "https://WWW.INSTAGRAM.COM/p/X"
      { protocol := "https:", hostname := "www.instagram.com", port := "",
        username := "", password := "", pathname := "/p/X",
        search := "", hash := "" } (by decide)).mpr (by decide),
   C4_allowlist.2.2 "https://WWW.INSTAGRAM.COM/p/X"
      { protocol := "https:", hostname := "www.instagram.com", port := "",
        username := "", password := "", pathname := "/p/X",
        search := "", hash := "" } (by decide)⟩


/-- C6 as stated is false on the code: on a parseable URL with a genuine
`?query` and no literal `/?`, the query string is not left untouched in
the returned URL — `cleanUrl` is rebuilt without the query (it contains
no `?` at all), while `removed`/`wasModified` do not report the loss. -/
theorem C6_query_counterexample :
    parseURL "https://instagram.com/p/X?a=1" =
      some { protocol := "https:", hostname := "instagram.com", port := "",
             username := "", password := "", pathname := "/p/X",
             search := "?a=1", hash := "" } ∧
    hasSlashQ ("https://instagram.com/p/X?a=1" : String).data = false ∧
    cleanInstagramUrl "https://instagram.com/p/X?a=1" =
      some { cleanUrl := "https://instagram.com/p/X",
             removed := "No tracking parameters found", wasModified := false } ∧
    '?' ∉ ("https://instagram.com/p/X" : String).data :=
  ⟨by decide, by decide, by decide, by decide⟩

/-- C6 amended: for every parseable URL with a non-empty query component
and no literal `/?` in the raw string, the cleaner silently discards the
query: the returned `cleanUrl` contains no `?` at all, while
`wasModified` stays false and `removed` stays the sentinel, so the drop
is not reported. -/
theorem C6_query_dropped {s : String} {u : URLRec} (h : parseURL s = some u)
    (_hq : u.search ≠ "") (hns : hasSlashQ s.data = false) :
    ∃ r, cleanInstagramUrl s = some r ∧
      (∀ c ∈ r.cleanUrl.data, c ≠ '?') ∧
      r.wasModified = false ∧
      r.removed = "No tracking parameters found" := by
  refine ⟨_, cleanInstagramUrl_spec h, ?_, ?_, ?_⟩
  · intro c hc
    exact (cleanUrl_chars h c hc).1
  · show (hasSlashQ s.data && _) = false
    rw [hns, Bool.false_and]
  · show (if _ ∧ _ then _ else _) = _
    rw [if_neg (by simp [hns])]

/-- Witness for the amended C6 at a concrete query-carrying input. -/
theorem C6_query_dropped_witness :
    ∃ r, cleanInstagramUrl "https://instagram.com/p/X?a=1" = some r ∧
      (∀ c ∈ r.cleanUrl.data, c ≠ '?') ∧
      r.wasModified = false ∧
      r.removed = "No tracking parameters found" :=
  C6_query_dropped (s := "https://instagram.com/p/X?a=1")
    (u := { protocol := "https:", hostname := "instagram.com", port := "",
            username := "", password := "", pathname := "/p/X",
            search := "?a=1", hash := "" })
    (by decide) (by decide) (by decide)

/-- C7: validated inputs never hit the `ParseError` branch of
`cleanInstagramUrl` (validation re-parses the same string), and
`validateAndCleanUrl` never surfaces the malformed-URL outcome of its
`catch` for any input — the defensive branch is unreachable. -/
theorem C7_parse_error_unreachable :
    (∀ s, isValidInstagramUrl s = true → ∃ r, cleanInstagramUrl s = some r) ∧
    (∀ s, validateAndCleanUrl s ≠ UrlOutcome.malformed) := by
  refine ⟨clean_of_valid, ?_⟩
  intro s
  unfold validateAndCleanUrl
  split
  · simp
  · split
    · simp
    · rename_i hvalid
      have hv : isValidInstagramUrl s = true := by
        cases hb : isValidInstagramUrl s with
        | false => exact absurd hb hvalid
        | true => rfl
      obtain ⟨r, hr⟩ := clean_of_valid s hv
      rw [hr]
      simp

/-- Witness for C7: a validated input cleans successfully, and concrete
calls never yield the malformed outcome. -/
theorem C7_parse_error_unreachable_witness :
    (∃ r, cleanInstagramUrl "https://m.instagram.com/p/Y/?igsh=zz" = some r) ∧
    validateAndCleanUrl "https://m.instagram.com/p/Y/?igsh=zz" ≠ UrlOutcome.malformed :=
  ⟨C7_parse_error_unreachable.1 "https://m.instagram.com/p/Y/?igsh=zz" (by decide),
   C7_parse_error_unreachable.2 "https://m.instagram.com/p/Y/?igsh=zz"⟩

/-- C8 as stated is false on the code: `validateAndCleanUrl` treats only
the empty string as a no-op; a whitespace-only input is not empty, fails
`isValidInstagramUrl`, and signals the invalid-domain error instead of
doing nothing.  (Callers always trim before calling, so this input
reaches the function only if it is called directly.) -/
theorem C8_whitespace_counterexample :
    validateAndCleanUrl "   " = UrlOutcome.invalidDomain ∧
    validateAndCleanUrl "   " ≠ UrlOutcome.noResult :=
  ⟨by decide, by decide⟩

/-- C8 amended: `validateAndCleanUrl` is a no-op exactly on the empty
string; whitespace-only raw input is trimmed by every caller, so through
the input pipeline it also produces a no-op; a non-empty input failing
`isValidInstagramUrl` signals the invalid-domain error and produces no
result; and a validated input produces the `CleaningResult` for
display.  Together with the unreachable malformed branch this is the
three-way outcome. -/
theorem C8_three_way :
    validateAndCleanUrl "" = UrlOutcome.noResult ∧
    (∀ raw, jsTrim raw = "" → handleInput raw = UrlOutcome.noResult) ∧
    (∀ s, s ≠ "" → isValidInstagramUrl s = false →
      validateAndCleanUrl s = UrlOutcome.invalidDomain) ∧
    (∀ s, isValidInstagramUrl s = true →
      ∃ r, cleanInstagramUrl s = some r ∧
        validateAndCleanUrl s = UrlOutcome.cleaned r) := by
  refine ⟨rfl, ?_, ?_, ?_⟩
  · intro raw h
    unfold handleInput
    rw [h]
    rfl
  · intro s hne hv
    unfold validateAndCleanUrl
    rw [if_neg hne, if_pos hv]
  · intro s hv
    obtain ⟨r, hr⟩ := clean_of_valid s hv
    refine ⟨r, hr, ?_⟩
    have hne : s ≠ "" := by
      intro he
      rw [he] at hv
      exact absurd hv (by decide)
    unfold validateAndCleanUrl
    rw [if_neg hne, if_neg (by rw [hv]; simp), hr]

/-- Witness for the amended C8 at concrete inputs: whitespace through
the pipeline, a non-Instagram URL, and a valid Instagram URL. -/
theorem C8_three_way_witness :
    handleInput "   " = UrlOutcome.noResult ∧
    validateAndCleanUrl "https://twitter.com/foo" = UrlOutcome.invalidDomain ∧
    (∃ r, cleanInstagramUrl "https://instagr.am/p/Q" = some r ∧
      validateAndCleanUrl "https://instagr.am/p/Q" = UrlOutcome.cleaned r) :=
  ⟨C8_three_way.2.1 "   " (by decide),
   C8_three_way.2.2.1 "https://twitter.com/foo" (by decide) (by decide),
   C8_three_way.2.2.2 "https://instagr.am/p/Q" (by decide)⟩

end IGClean
